import Mathlib

/-!
Verification of the rudy routing layer (faceyspacey/rudy).

The source files under scrutiny:
  * `src/Link/utils/toUrlAndAction.js` — the link-resolution helper, the
    registry builder (`formatRoutes` default export, called
    `buildRoutesMap` here after its role) and `formatRoute`,
    `findBasename`, `stripBasename`;
  * `src/middleware/pathlessRoute.js` — the pathless-route middleware;
  * `src/Link/utils/handlePress.js` — the Link press handler.

JavaScript objects are embedded as association lists of
`String × value` in insertion order, which is exactly the iteration
order JavaScript guarantees for non-numeric string keys.  Property
assignment (`obj[k] = v`) updates the existing key in place (keeping
its position) or appends a fresh key at the end; `Object.assign` folds
such assignments over the source object; `Object.keys` lists keys in
order.
-/

namespace Rudy

/-- A JavaScript object with values of type `α`: entries in insertion
order.  A real JS object never holds two entries with the same key;
that shows up here as `(keys o).Nodup`, an invariant the operations
below preserve. -/
abbrev JsObj (α : Type) := List (String × α)

/-- `Object.keys(o)` — the keys in insertion order. -/
def keys {α : Type} (o : JsObj α) : List String := o.map Prod.fst

/-- Property assignment `o[k] = v`: update the entry keyed `k` in place
(JS keeps the key at its original position), append a fresh entry
otherwise. -/
def assign {α : Type} : JsObj α → String → α → JsObj α
  | [], k, v => [(k, v)]
  | p :: t, k, v => if p.1 == k then (k, v) :: t else p :: assign t k v

/-- Property read `o[k]`: the value at the entry keyed `k` (`none`
plays the role of `undefined`). -/
def get? {α : Type} (o : JsObj α) (k : String) : Option α :=
  (o.find? (fun p => p.1 == k)).map Prod.snd

/-- `Object.assign(o, i)`: assign every entry of `i` onto `o`, in
order. -/
def assignAll {α : Type} (o i : JsObj α) : JsObj α :=
  i.foldl (fun acc p => assign acc p.1 p.2) o

section JsObjLemmas

variable {α : Type}

theorem keys_assign (o : JsObj α) (k : String) (v : α) :
    keys (assign o k v) = if k ∈ keys o then keys o else keys o ++ [k] := by
  induction o with
  | nil => simp [assign, keys]
  | cons p t ih =>
    by_cases hp : p.1 = k
    · simp [assign, keys, hp]
    · have h1 : (p.1 == k) = false := beq_false_of_ne hp
      have h2 : ¬ k = p.1 := fun hh => hp hh.symm
      have ih' := ih
      simp only [keys, List.map_cons] at ih' ⊢
      simp only [assign, h1, Bool.false_eq_true, if_false, List.map_cons]
      rw [ih']
      by_cases hk : k ∈ List.map Prod.fst t
      · simp [List.mem_cons, h2, hk]
      · simp [List.mem_cons, h2, hk]

theorem keys_assign_of_mem {o : JsObj α} {k : String} (v : α)
    (h : k ∈ keys o) : keys (assign o k v) = keys o := by
  rw [keys_assign, if_pos h]

theorem keys_assign_append (o : JsObj α) (k : String) (v : α) :
    ∃ l, keys (assign o k v) = keys o ++ l := by
  rw [keys_assign]
  by_cases h : k ∈ keys o
  · exact ⟨[], by simp [h]⟩
  · exact ⟨[k], by simp [h]⟩

theorem mem_keys_assign_self (o : JsObj α) (k : String) (v : α) :
    k ∈ keys (assign o k v) := by
  rw [keys_assign]
  by_cases h : k ∈ keys o
  · rw [if_pos h]
    exact h
  · simp [h]

theorem mem_keys_assign_of_mem {o : JsObj α} {k : String} (t : String) (v : α)
    (h : k ∈ keys o) : k ∈ keys (assign o t v) := by
  rw [keys_assign]
  by_cases ht : t ∈ keys o
  · simpa [ht] using h
  · simp [ht, h]

theorem nodup_keys_assign {o : JsObj α} (k : String) (v : α)
    (h : (keys o).Nodup) : (keys (assign o k v)).Nodup := by
  rw [keys_assign]
  by_cases hk : k ∈ keys o
  · simpa [hk] using h
  · rw [if_neg hk]
    exact List.Nodup.append h (List.nodup_singleton k)
      (by simpa [List.disjoint_singleton] using hk)

theorem get?_assign_self (o : JsObj α) (k : String) (v : α) :
    get? (assign o k v) k = some v := by
  induction o with
  | nil => simp [assign, get?, List.find?]
  | cons p t ih =>
    by_cases hp : p.1 = k
    · simp [assign, get?, List.find?, hp]
    · have h1 : (p.1 == k) = false := beq_false_of_ne hp
      simp only [assign, h1, Bool.false_eq_true, if_false]
      simpa [get?, List.find?, h1] using ih

theorem get?_assign_ne {o : JsObj α} {k t : String} (v : α) (h : k ≠ t) :
    get? (assign o t v) k = get? o k := by
  induction o with
  | nil => simp [assign, get?, List.find?, beq_false_of_ne (fun hh => h hh.symm)]
  | cons p l ih =>
    by_cases hp : p.1 = t
    · have h1 : (p.1 == t) = true := beq_iff_eq.mpr hp
      have h2 : (t == k) = false := beq_false_of_ne (fun hh => h hh.symm)
      have h3 : (p.1 == k) = false := by
        rw [hp]
        exact beq_false_of_ne fun hh => h hh.symm
      simp [assign, get?, List.find?, h1, h2, h3]
    · have h1 : (p.1 == t) = false := beq_false_of_ne hp
      by_cases hk : p.1 = k
      · simp [assign, get?, List.find?, h1, beq_iff_eq.mpr hk]
      · have h3 : (p.1 == k) = false := beq_false_of_ne hk
        simp only [assign, h1, Bool.false_eq_true, if_false]
        simpa [get?, List.find?, h1, h3] using ih

theorem get?_eq_none_iff {o : JsObj α} {k : String} :
    get? o k = none ↔ k ∉ keys o := by
  unfold get?
  rw [Option.map_eq_none', List.find?_eq_none]
  constructor
  · intro h hk
    rcases List.mem_map.mp hk with ⟨p, hp, hpk⟩
    exact h p hp (by simp [hpk])
  · intro h p hp hbeq
    exact h (List.mem_map.mpr ⟨p, hp, eq_of_beq hbeq⟩)

theorem mem_keys_of_get?_eq_some {o : JsObj α} {k : String} {v : α}
    (h : get? o k = some v) : k ∈ keys o := by
  by_contra hk
  rw [get?_eq_none_iff.mpr hk] at h
  cases h

theorem keys_assignAll_append (o i : JsObj α) :
    ∃ l, keys (assignAll o i) = keys o ++ l := by
  induction i generalizing o with
  | nil => exact ⟨[], by simp [assignAll]⟩
  | cons p t ih =>
    rcases keys_assign_append o p.1 p.2 with ⟨l1, hl1⟩
    rcases ih (assign o p.1 p.2) with ⟨l2, hl2⟩
    refine ⟨l1 ++ l2, ?_⟩
    show keys (assignAll (assign o p.1 p.2) t) = keys o ++ (l1 ++ l2)
    rw [hl2, hl1, List.append_assoc]

theorem nodup_keys_assignAll {o : JsObj α} (i : JsObj α)
    (h : (keys o).Nodup) : (keys (assignAll o i)).Nodup := by
  induction i generalizing o with
  | nil => simpa [assignAll] using h
  | cons p t ih =>
    show ((keys (assignAll (assign o p.1 p.2) t))).Nodup
    exact ih (nodup_keys_assign p.1 p.2 h)

theorem get?_assignAll_not_mem {o : JsObj α} {i : JsObj α} {k : String}
    (h : k ∉ keys i) : get? (assignAll o i) k = get? o k := by
  induction i generalizing o with
  | nil => rfl
  | cons p t ih =>
    have hk : k ≠ p.1 := by
      intro hh
      exact h (by simp [keys, hh])
    have ht : k ∉ keys t := by
      intro hh
      exact h (by simp [keys] at hh ⊢; exact Or.inr hh)
    show get? (assignAll (assign o p.1 p.2) t) k = get? o k
    rw [ih ht, get?_assign_ne _ hk]

theorem get?_assignAll_mem {i : JsObj α} {k : String} {v : α}
    (hn : (keys i).Nodup) (hv : get? i k = some v) (o : JsObj α) :
    get? (assignAll o i) k = some v := by
  induction i generalizing o with
  | nil => cases hv
  | cons p t ih =>
    have hn' : (p.1 :: keys t).Nodup := by
      have hkeys : keys (p :: t) = p.1 :: keys t := rfl
      rwa [hkeys] at hn
    have hcons := List.nodup_cons.mp hn'
    by_cases hk : p.1 = k
    · have hnotin : k ∉ keys t := by simpa [hk, keys] using hcons.1
      have hvv : v = p.2 := by
        unfold get? at hv
        simp [List.find?, beq_iff_eq.mpr hk] at hv
        exact hv.symm
      show get? (assignAll (assign o p.1 p.2) t) k = some v
      rw [get?_assignAll_not_mem hnotin, hk, get?_assign_self, hvv]
    · have hv' : get? t k = some v := by
        unfold get? at hv ⊢
        simpa [List.find?, beq_false_of_ne hk] using hv
      show get? (assignAll (assign o p.1 p.2) t) k = some v
      exact ih (by simpa [keys] using hcons.2) hv' (assign o p.1 p.2)

end JsObjLemmas

/-! ## Route registry (`formatRoutes` default export in the sources)

The registry builder lives in the second document of
`src/Link/utils/toUrlAndAction.js` (the `formatRoutes` module).  Route
values in an input map are a path string, a bare thunk function, or a
record; callbacks are opaque functions, embedded here as string
identifiers (`some f` models "a function is present").  The action-type
constants `ADD_ROUTES`, `CHANGE_BASENAME`, `CLEAR_CACHE`, `CONFIRM`,
`CALL_HISTORY` are imported from `../types`, which is not among the
sources; they are modelled as five distinct string constants, which is
all the code under scrutiny relies on. -/

def ADD_ROUTES : String := "ADD_ROUTES"

def CHANGE_BASENAME : String := "CHANGE_BASENAME"

def CLEAR_CACHE : String := "CLEAR_CACHE"

def CONFIRM : String := "CONFIRM"

def CALL_HISTORY : String := "CALL_HISTORY"

/-- A route record.  `none` in an `Option` field models an absent
(`undefined`) property; callback slots hold the identifier of the
attached function.  A record fresh from user input has no `type`
property, modelled by the default `""`. -/
structure RouteRec where
  type : String := ""
  path : Option String := none
  thunk : Option String := none
  beforeEnter : Option String := none
  onComplete : Option String := none
  dispatch : Option Bool := none
deriving DecidableEq, Repr

/-- A value of a routes-map entry: a bare path string, a bare thunk
function, or a route record. -/
inductive RouteDef : Type
  | str (s : String)
  | fn (f : String)
  | record (r : RouteRec)
deriving DecidableEq, Repr

/-- JS truthiness of a routes-map value: the empty string is falsy,
functions and objects are truthy. -/
def jsTruthyRoute : RouteDef → Bool
  | RouteDef.str s => !(s == "")
  | RouteDef.fn _ => true
  | RouteDef.record _ => true

/-- `input[k] || dflt` on routes-map values. -/
def jsOrRoute (v : Option RouteDef) (dflt : RouteDef) : RouteDef :=
  match v with
  | some x => if jsTruthyRoute x then x else dflt
  | none => dflt

/-- `route.type = type`: setting a property sticks on a record and is
dropped on the primitive/function cases (which the no-formatter code
path never produces). -/
def setType (r : RouteDef) (t : String) : RouteDef :=
  match r with
  | RouteDef.record r0 => RouteDef.record { r0 with type := t }
  | x => x

/-- An optional user-supplied formatter, received by `formatRoute` as
`(route, type, routes, isAddRoutes)`. -/
abbrev Formatter : Type := RouteDef → String → JsObj RouteDef → Bool → RouteDef

/-- `formatRoute` (exported from the `formatRoutes` module): a bare
string becomes `{ path: r }`; with a formatter the (string-normalized)
route is delegated to it; otherwise a bare function becomes
`{ thunk: route }` and a record is returned unchanged. -/
def formatRoute (r : RouteDef) (type : String) (routes : JsObj RouteDef)
    (formatter : Option Formatter) (isAddRoutes : Bool) : RouteDef :=
  let route := match r with
    | RouteDef.str s => RouteDef.record { path := some s }
    | x => x
  match formatter with
  | some f => f route type routes isAddRoutes
  | none =>
    match route with
    | RouteDef.fn f => RouteDef.record { thunk := some f }
    | x => x

/-- One iteration of the `types.forEach` loop in the registry builder:
`routes[type] = formatRoute(routes[type], type, routes, formatter,
isAddRoutes)` followed by `route.type = type`. -/
def formatStep (formatter : Option Formatter) (isAddRoutes : Bool)
    (rs : JsObj RouteDef) (type : String) : JsObj RouteDef :=
  assign rs type
    (setType (formatRoute ((get? rs type).getD (RouteDef.record {})) type rs
      formatter isAddRoutes) type)

/-- The `types.forEach` loop: the key list is captured once
(`Object.keys`) and every entry is formatted in place. -/
def formatAll (routes : JsObj RouteDef) (formatter : Option Formatter)
    (isAddRoutes : Bool) : JsObj RouteDef :=
  (keys routes).foldl (formatStep formatter isAddRoutes) routes

/-- The `isAddRoutes=false` half of the registry builder: seed
`NOT_FOUND` (defaulting to path `/not-found`), `Object.assign` the user
input over it, then fill the five built-in pathless maintenance routes
unless the input supplies them. -/
def injectDefaultRoutes (input : JsObj RouteDef) : JsObj RouteDef :=
  let r1 := assign [] "NOT_FOUND"
    (jsOrRoute (get? input "NOT_FOUND") (RouteDef.record { path := some "/not-found" }))
  let r2 := assignAll r1 input
  let r3 := assign r2 ADD_ROUTES
    (jsOrRoute (get? input ADD_ROUTES)
      (RouteDef.record { thunk := some "addRoutes", dispatch := some false }))
  let r4 := assign r3 CHANGE_BASENAME
    (jsOrRoute (get? input CHANGE_BASENAME)
      (RouteDef.record { thunk := some "changeBasename", dispatch := some false }))
  let r5 := assign r4 CLEAR_CACHE
    (jsOrRoute (get? input CLEAR_CACHE)
      (RouteDef.record { thunk := some "clearCache" }))
  let r6 := assign r5 CONFIRM
    (jsOrRoute (get? input CONFIRM)
      (RouteDef.record { thunk := some "confirm", dispatch := some false }))
  assign r6 CALL_HISTORY
    (jsOrRoute (get? input CALL_HISTORY)
      (RouteDef.record { thunk := some "callHistory", dispatch := some false }))

/-- The registry builder — the default export of the `formatRoutes`
module (`(input, formatter, isAddRoutes = false)`). -/
def buildRoutesMap (input : JsObj RouteDef) (formatter : Option Formatter)
    (isAddRoutes : Bool) : JsObj RouteDef :=
  let routes := if isAddRoutes then input else injectDefaultRoutes input
  formatAll routes formatter isAddRoutes

/-- The five built-in pathless maintenance route types. -/
def maintenanceTypes : List String :=
  [ADD_ROUTES, CHANGE_BASENAME, CLEAR_CACHE, CONFIRM, CALL_HISTORY]

/-- The rudy error taxonomy relevant to registry build and link
resolution. -/
inductive RudyErr : Type
  | DuplicateRouteType
  | ParamMismatch
  | InvalidAction
  | NoPathForType
deriving DecidableEq, Repr

/-- Modelled from the spec: the `add-routes` merge.  A second
"add more routes" call "merges additional records into the existing
set without re-adding maintenance routes, erroring with
`DuplicateRouteType` if a new type collides with an existing one"; the
merge is performed by the `addRoutes` pathless thunk
(`src/pathlessRoutes`), which is not among the source files — only the
formatting of the new records (`buildRoutesMap` in `isAddRoutes` mode)
is.  The collision check and the error are therefore taken from the
spec's words; the formatting step is the source-translated builder. -/
def addRoutesMerge (existing newInput : JsObj RouteDef)
    (formatter : Option Formatter) : Except RudyErr (JsObj RouteDef) :=
  if (keys newInput).any (fun k => decide (k ∈ keys existing)) then
    Except.error RudyErr.DuplicateRouteType
  else
    Except.ok (assignAll existing (buildRoutesMap newInput formatter true))

section RegistryLemmas

/-- Keys of one formatting step are unchanged when the formatted type
is already present. -/
theorem keys_formatStep {rs : JsObj RouteDef} {t : String}
    (fmt : Option Formatter) (b : Bool) (h : t ∈ keys rs) :
    keys (formatStep fmt b rs t) = keys rs :=
  keys_assign_of_mem _ h

theorem keys_foldl_formatStep (fmt : Option Formatter) (b : Bool) :
    ∀ (l : List String) (rs : JsObj RouteDef), (∀ t ∈ l, t ∈ keys rs) →
      keys (l.foldl (formatStep fmt b) rs) = keys rs := by
  intro l
  induction l with
  | nil => intro rs _; rfl
  | cons t ts ih =>
    intro rs hmem
    have ht : t ∈ keys rs := hmem t (List.mem_cons_self t ts)
    have hstep := keys_formatStep fmt b ht
    show keys (ts.foldl (formatStep fmt b) (formatStep fmt b rs t)) = keys rs
    rw [ih (formatStep fmt b rs t)
      (fun x hx => hstep ▸ hmem x (List.mem_cons_of_mem t hx)), hstep]

/-- The `forEach` formatting pass never changes the key set or its
order. -/
theorem keys_formatAll (routes : JsObj RouteDef) (fmt : Option Formatter)
    (b : Bool) : keys (formatAll routes fmt b) = keys routes :=
  keys_foldl_formatStep fmt b (keys routes) routes (fun _ h => h)

theorem get?_foldl_formatStep_not_mem {k : String} (fmt : Option Formatter)
    (b : Bool) : ∀ (l : List String) (rs : JsObj RouteDef), k ∉ l →
      get? (l.foldl (formatStep fmt b) rs) k = get? rs k := by
  intro l
  induction l with
  | nil => intro rs _; rfl
  | cons t ts ih =>
    intro rs hk
    have hkt : k ≠ t := fun hh => hk (hh ▸ List.mem_cons_self t ts)
    have hkts : k ∉ ts := fun hh => hk (List.mem_cons_of_mem t hh)
    show get? (ts.foldl (formatStep fmt b) (formatStep fmt b rs t)) k = get? rs k
    rw [ih _ hkts]
    exact get?_assign_ne _ hkt

theorem get?_foldl_formatStep_mem {k : String} {v : RouteDef}
    (fmt : Option Formatter) (b : Bool) :
    ∀ (l : List String) (rs : JsObj RouteDef), l.Nodup → k ∈ l →
      get? rs k = some v →
      ∃ rs0, get? (l.foldl (formatStep fmt b) rs) k
        = some (setType (formatRoute v k rs0 fmt b) k) := by
  intro l
  induction l with
  | nil => intro rs _ hk; cases hk
  | cons t ts ih =>
    intro rs hnd hk hv
    rcases List.nodup_cons.mp hnd with ⟨hnotin, hnd'⟩
    by_cases hkt : k = t
    · subst hkt
      refine ⟨rs, ?_⟩
      show get? (ts.foldl (formatStep fmt b) (formatStep fmt b rs k)) k = _
      rw [get?_foldl_formatStep_not_mem fmt b ts _ hnotin]
      unfold formatStep
      rw [hv]
      exact get?_assign_self _ _ _
    · have hkts : k ∈ ts := by
        rcases List.mem_cons.mp hk with h | h
        · exact absurd h hkt
        · exact h
      have hv' : get? (formatStep fmt b rs t) k = some v := by
        unfold formatStep
        rw [get?_assign_ne _ hkt]
        exact hv
      exact ih _ hnd' hkts hv'

/-- Value of a formatted entry: under unique keys, each present entry
ends up formatted once with its own key stamped as `type`. -/
theorem formatAll_get? {routes : JsObj RouteDef} {k : String} {v : RouteDef}
    (fmt : Option Formatter) (b : Bool) (hnd : (keys routes).Nodup)
    (hv : get? routes k = some v) :
    ∃ rs0, get? (formatAll routes fmt b) k
      = some (setType (formatRoute v k rs0 fmt b) k) :=
  get?_foldl_formatStep_mem fmt b (keys routes) routes hnd
    (mem_keys_of_get?_eq_some hv) hv

/-- With no formatter the `routes` argument of `formatRoute` is
irrelevant. -/
theorem formatRoute_none_routes_irrelevant (v : RouteDef) (k : String)
    (rs rs0 : JsObj RouteDef) (b : Bool) :
    formatRoute v k rs none b = formatRoute v k rs0 none b := rfl

theorem nodup_keys_injectDefaultRoutes (input : JsObj RouteDef) :
    (keys (injectDefaultRoutes input)).Nodup := by
  unfold injectDefaultRoutes
  apply nodup_keys_assign
  apply nodup_keys_assign
  apply nodup_keys_assign
  apply nodup_keys_assign
  apply nodup_keys_assign
  apply nodup_keys_assignAll
  apply nodup_keys_assign
  exact List.nodup_nil

theorem nodup_keys_buildRoutesMap {input : JsObj RouteDef}
    (fmt : Option Formatter) (b : Bool) (h : (keys input).Nodup) :
    (keys (buildRoutesMap input fmt b)).Nodup := by
  unfold buildRoutesMap
  cases b with
  | true =>
    rw [if_pos rfl, keys_formatAll]
    exact h
  | false =>
    rw [if_neg (by simp), keys_formatAll]
    exact nodup_keys_injectDefaultRoutes input

/-- A user-supplied truthy entry survives the default-injection phase
unchanged, whatever its key (for the built-in keys the `input[k] ||
default` choice picks the user value; for other keys `Object.assign`
put it there). -/
theorem get?_injectDefaultRoutes_of_input {input : JsObj RouteDef}
    {k : String} {v : RouteDef} (hnd : (keys input).Nodup)
    (hv : get? input k = some v) (ht : jsTruthyRoute v = true) :
    get? (injectDefaultRoutes input) k = some v := by
  have hassign : ∀ (o : JsObj RouteDef) (K : String) (d : RouteDef),
      get? o k = some v →
      get? (assign o K (jsOrRoute (get? input K) d)) k = some v := by
    intro o K d ho
    by_cases hk : k = K
    · subst hk
      have hjs : jsOrRoute (some v) d = v := by simp [jsOrRoute, ht]
      rw [hv, get?_assign_self, hjs]
    · rw [get?_assign_ne _ hk]
      exact ho
  unfold injectDefaultRoutes
  apply hassign
  apply hassign
  apply hassign
  apply hassign
  apply hassign
  exact get?_assignAll_mem hnd hv _

theorem formatAll_get?_none {routes : JsObj RouteDef} {k : String}
    (fmt : Option Formatter) (b : Bool) (h : get? routes k = none) :
    get? (formatAll routes fmt b) k = none := by
  unfold formatAll
  rw [get?_foldl_formatStep_not_mem fmt b (keys routes) routes
    (get?_eq_none_iff.mp h)]
  exact h

theorem keys_injectDefaultRoutes_head (input : JsObj RouteDef) :
    ∃ l, keys (injectDefaultRoutes input) = "NOT_FOUND" :: l := by
  have step : ∀ (o : JsObj RouteDef) (K : String) (v : RouteDef)
      (l : List String), keys o = "NOT_FOUND" :: l →
      ∃ l2, keys (assign o K v) = "NOT_FOUND" :: l2 := by
    intro o K v l hl
    rcases keys_assign_append o K v with ⟨l1, h1⟩
    exact ⟨l ++ l1, by rw [h1, hl]; rfl⟩
  have h1 : ∀ v : RouteDef,
      keys (assign ([] : JsObj RouteDef) "NOT_FOUND" v) = ["NOT_FOUND"] :=
    fun _ => rfl
  simp only [injectDefaultRoutes]
  rcases keys_assignAll_append
      (assign [] "NOT_FOUND"
        (jsOrRoute (get? input "NOT_FOUND")
          (RouteDef.record { path := some "/not-found" }))) input with ⟨l2, h2⟩
  rw [h1] at h2
  rcases step _ ADD_ROUTES _ l2 h2 with ⟨l3, h3⟩
  rcases step _ CHANGE_BASENAME _ l3 h3 with ⟨l4, h4⟩
  rcases step _ CLEAR_CACHE _ l4 h4 with ⟨l5, h5⟩
  rcases step _ CONFIRM _ l5 h5 with ⟨l6, h6⟩
  rcases step _ CALL_HISTORY _ l6 h6 with ⟨l7, h7⟩
  exact ⟨l7, h7⟩

theorem mem_maintenance_keys_injectDefaultRoutes (input : JsObj RouteDef)
    (t : String) (ht : t ∈ maintenanceTypes) :
    t ∈ keys (injectDefaultRoutes input) := by
  have ht' : t = ADD_ROUTES ∨ t = CHANGE_BASENAME ∨ t = CLEAR_CACHE
      ∨ t = CONFIRM ∨ t = CALL_HISTORY := by
    simpa [maintenanceTypes] using ht
  simp only [injectDefaultRoutes]
  rcases ht' with h | h | h | h | h <;> subst h
  · apply mem_keys_assign_of_mem
    apply mem_keys_assign_of_mem
    apply mem_keys_assign_of_mem
    apply mem_keys_assign_of_mem
    exact mem_keys_assign_self _ _ _
  · apply mem_keys_assign_of_mem
    apply mem_keys_assign_of_mem
    apply mem_keys_assign_of_mem
    exact mem_keys_assign_self _ _ _
  · apply mem_keys_assign_of_mem
    apply mem_keys_assign_of_mem
    exact mem_keys_assign_self _ _ _
  · apply mem_keys_assign_of_mem
    exact mem_keys_assign_self _ _ _
  · exact mem_keys_assign_self _ _ _

/-- The default `NOT_FOUND` record survives the default-injection phase
when the input does not supply one. -/
theorem get?_injectDefaultRoutes_not_found {input : JsObj RouteDef}
    (h : get? input "NOT_FOUND" = none) :
    get? (injectDefaultRoutes input) "NOT_FOUND"
      = some (RouteDef.record { path := some "/not-found" }) := by
  have hne : ∀ (o : JsObj RouteDef) (K : String) (v : RouteDef),
      "NOT_FOUND" ≠ K →
      get? (assign o K v) "NOT_FOUND" = get? o "NOT_FOUND" :=
    fun o K v hK => get?_assign_ne v hK
  simp only [injectDefaultRoutes]
  rw [hne _ CALL_HISTORY _ (by decide), hne _ CONFIRM _ (by decide),
    hne _ CLEAR_CACHE _ (by decide), hne _ CHANGE_BASENAME _ (by decide),
    hne _ ADD_ROUTES _ (by decide),
    get?_assignAll_not_mem (get?_eq_none_iff.mp h), h]
  have hself := get?_assign_self ([] : JsObj RouteDef) "NOT_FOUND"
    (jsOrRoute none (RouteDef.record { path := some "/not-found" }))
  simpa [jsOrRoute] using hself

end RegistryLemmas

/-! ## Claims about the route registry -/

/-- Claim C1: for every routes-map input the flattened registry has
pairwise-distinct route types, and a registry build whose add-routes
merge brings a type colliding with an existing one fails synchronously
with `DuplicateRouteType` (merge modelled from the spec; see
`addRoutesMerge`), while a successful merge again yields distinct
types. -/
theorem buildRoutesMap_types_unique_and_merge_duplicate_error :
    (∀ (input : JsObj RouteDef) (fmt : Option Formatter) (b : Bool),
      (keys input).Nodup → (keys (buildRoutesMap input fmt b)).Nodup)
    ∧ (∀ (existing newInput : JsObj RouteDef) (fmt : Option Formatter)
        (k : String), k ∈ keys newInput → k ∈ keys existing →
        addRoutesMerge existing newInput fmt
          = Except.error RudyErr.DuplicateRouteType)
    ∧ (∀ (existing newInput : JsObj RouteDef) (fmt : Option Formatter)
        (merged : JsObj RouteDef), (keys existing).Nodup →
        addRoutesMerge existing newInput fmt = Except.ok merged →
        (keys merged).Nodup) := by
  refine ⟨?_, ?_, ?_⟩
  · intro input fmt b h
    exact nodup_keys_buildRoutesMap fmt b h
  · intro ex nw fmt k hknw hkex
    have hc : ((keys nw).any (fun k => decide (k ∈ keys ex))) = true :=
      List.any_eq_true.mpr ⟨k, hknw, by simpa using hkex⟩
    simp [addRoutesMerge, hc]
  · intro ex nw fmt merged hex hok
    unfold addRoutesMerge at hok
    by_cases hc : ((keys nw).any (fun k => decide (k ∈ keys ex))) = true
    · rw [if_pos hc] at hok
      cases hok
    · rw [if_neg hc] at hok
      cases hok
      exact nodup_keys_assignAll _ hex

theorem buildRoutesMap_types_unique_and_merge_duplicate_error_witness :
    (keys (buildRoutesMap [("HOME", RouteDef.str "/")] none false)).Nodup
    ∧ addRoutesMerge [("HOME", RouteDef.record {})]
        [("HOME", RouteDef.str "/")] none
        = Except.error RudyErr.DuplicateRouteType
    ∧ (keys (assignAll [("HOME", RouteDef.record {})]
        (buildRoutesMap [("ABOUT", RouteDef.str "/about")] none true))).Nodup := by
  refine ⟨?_, ?_, ?_⟩
  · exact buildRoutesMap_types_unique_and_merge_duplicate_error.1
      [("HOME", RouteDef.str "/")] none false (by decide)
  · exact buildRoutesMap_types_unique_and_merge_duplicate_error.2.1
      [("HOME", RouteDef.record {})] [("HOME", RouteDef.str "/")] none "HOME"
      (by decide) (by decide)
  · exact buildRoutesMap_types_unique_and_merge_duplicate_error.2.2
      [("HOME", RouteDef.record {})] [("ABOUT", RouteDef.str "/about")] none
      (assignAll [("HOME", RouteDef.record {})]
        (buildRoutesMap [("ABOUT", RouteDef.str "/about")] none true))
      (by decide) (by rfl)

/-- Claim C3: an initial registry build always contains `NOT_FOUND`,
that record defaults to path `/not-found` when the input lacks one, and
`NOT_FOUND` sits first in registry iteration order — before every
user-supplied route, hence before any catch-all pattern. -/
theorem buildRoutesMap_not_found_first_and_default :
    ∀ input : JsObj RouteDef,
      "NOT_FOUND" ∈ keys (buildRoutesMap input none false)
      ∧ (keys (buildRoutesMap input none false)).head? = some "NOT_FOUND"
      ∧ (get? input "NOT_FOUND" = none →
          get? (buildRoutesMap input none false) "NOT_FOUND"
            = some (RouteDef.record
                { type := "NOT_FOUND", path := some "/not-found" })) := by
  intro input
  have hkeys : keys (buildRoutesMap input none false)
      = keys (injectDefaultRoutes input) := by
    unfold buildRoutesMap
    rw [if_neg (by simp), keys_formatAll]
  rcases keys_injectDefaultRoutes_head input with ⟨l, hl⟩
  refine ⟨?_, ?_, ?_⟩
  · rw [hkeys, hl]
    exact List.mem_cons_self _ _
  · rw [hkeys, hl]
    rfl
  · intro h
    have hinj := get?_injectDefaultRoutes_not_found h
    have hbuild : buildRoutesMap input none false
        = formatAll (injectDefaultRoutes input) none false := by
      unfold buildRoutesMap
      rw [if_neg (by simp)]
    rcases formatAll_get? none false (nodup_keys_injectDefaultRoutes input)
      hinj with ⟨rs0, hrs⟩
    rw [hbuild, hrs]
    simp [formatRoute, setType]

theorem buildRoutesMap_not_found_first_and_default_witness :
    get? (buildRoutesMap [] none false) "NOT_FOUND"
      = some (RouteDef.record
          { type := "NOT_FOUND", path := some "/not-found" }) :=
  (buildRoutesMap_not_found_first_and_default []).2.2 rfl

/-- Claim C6: the five built-in maintenance routes are registered only
by an initial build (`isAddRoutes=false`); a build in add-routes mode
keeps exactly the newly supplied keys and so never re-adds a
maintenance route that the new input does not itself mention. -/
theorem buildRoutesMap_maintenance_routes_once :
    (∀ (input : JsObj RouteDef) (fmt : Option Formatter),
      keys (buildRoutesMap input fmt true) = keys input)
    ∧ (∀ (input : JsObj RouteDef) (fmt : Option Formatter) (t : String),
      t ∈ maintenanceTypes → t ∈ keys (buildRoutesMap input fmt false))
    ∧ (∀ (input : JsObj RouteDef) (fmt : Option Formatter) (t : String),
      t ∈ maintenanceTypes → t ∉ keys input →
      t ∉ keys (buildRoutesMap input fmt true)) := by
  have hkeysTrue : ∀ (input : JsObj RouteDef) (fmt : Option Formatter),
      keys (buildRoutesMap input fmt true) = keys input := by
    intro input fmt
    unfold buildRoutesMap
    rw [if_pos rfl, keys_formatAll]
  refine ⟨hkeysTrue, ?_, ?_⟩
  · intro input fmt t ht
    unfold buildRoutesMap
    rw [if_neg (by simp), keys_formatAll]
    exact mem_maintenance_keys_injectDefaultRoutes input t ht
  · intro input fmt t _ hnot
    rw [hkeysTrue input fmt]
    exact hnot

theorem buildRoutesMap_maintenance_routes_once_witness :
    keys (buildRoutesMap [("HOME", RouteDef.str "/")] none true)
      = keys [("HOME", RouteDef.str "/")]
    ∧ ADD_ROUTES ∈ keys (buildRoutesMap [("HOME", RouteDef.str "/")] none false)
    ∧ ADD_ROUTES ∉ keys (buildRoutesMap [("HOME", RouteDef.str "/")] none true) := by
  refine ⟨?_, ?_, ?_⟩
  · exact buildRoutesMap_maintenance_routes_once.1 [("HOME", RouteDef.str "/")] none
  · exact buildRoutesMap_maintenance_routes_once.2.1
      [("HOME", RouteDef.str "/")] none ADD_ROUTES (by decide)
  · exact buildRoutesMap_maintenance_routes_once.2.2
      [("HOME", RouteDef.str "/")] none ADD_ROUTES (by decide) (by decide)

/-- Claim C7 counterexample: shorthand normalization does NOT hold for
every entry.  At the five reserved maintenance keys the builder runs
`routes[k] = input[k] || default` after `Object.assign`, so an
empty-string shorthand — JS-falsy — is replaced by the built-in
default record instead of becoming `{ path: '' }`: the input
`{ CONFIRM: '' }` yields the default `{ thunk: confirm, dispatch:
false }` record. -/
theorem buildRoutesMap_shorthand_empty_string_cex :
    get? (buildRoutesMap [("CONFIRM", RouteDef.str "")] none false) "CONFIRM"
      = some (RouteDef.record
          { type := "CONFIRM", thunk := some "confirm",
            dispatch := some false })
    ∧ ¬ get? (buildRoutesMap [("CONFIRM", RouteDef.str "")] none false)
          "CONFIRM"
      = some (RouteDef.record { type := "CONFIRM", path := some "" }) := by
  decide

/-- Claim C7 (amended): shorthand normalization — a routes-map entry
holding a bare NON-EMPTY string ends up in the registry as a record
with that string as `path`, and an entry holding a bare function ends
up as a record with that function as `thunk` (default formatter); an
empty-string shorthand is JS-falsy and is replaced by the built-in
default record at the five reserved maintenance keys. -/
theorem buildRoutesMap_shorthand_normalization :
    ∀ (input : JsObj RouteDef) (k s f : String) (b : Bool),
      (keys input).Nodup →
      (s ≠ "" → get? input k = some (RouteDef.str s) →
        get? (buildRoutesMap input none b) k
          = some (RouteDef.record { type := k, path := some s }))
      ∧ (get? input k = some (RouteDef.fn f) →
        get? (buildRoutesMap input none b) k
          = some (RouteDef.record { type := k, thunk := some f })) := by
  intro input k s f b hnd
  have main : ∀ v : RouteDef, jsTruthyRoute v = true → get? input k = some v →
      ∃ rs0, get? (buildRoutesMap input none b) k
        = some (setType (formatRoute v k rs0 none b) k) := by
    intro v htr hv
    cases b with
    | true =>
      have hb : buildRoutesMap input none true = formatAll input none true := by
        unfold buildRoutesMap
        rw [if_pos rfl]
      rcases formatAll_get? none true hnd hv with ⟨rs0, hrs⟩
      exact ⟨rs0, by rw [hb, hrs]⟩
    | false =>
      have hb : buildRoutesMap input none false
          = formatAll (injectDefaultRoutes input) none false := by
        unfold buildRoutesMap
        rw [if_neg (by simp)]
      have hinj := get?_injectDefaultRoutes_of_input hnd hv htr
      rcases formatAll_get? none false (nodup_keys_injectDefaultRoutes input)
        hinj with ⟨rs0, hrs⟩
      exact ⟨rs0, by rw [hb, hrs]⟩
  constructor
  · intro hs hv
    rcases main (RouteDef.str s) (by simp [jsTruthyRoute, hs]) hv with ⟨rs0, h⟩
    rw [h]
    simp [formatRoute, setType]
  · intro hv
    rcases main (RouteDef.fn f) (by simp [jsTruthyRoute]) hv with ⟨rs0, h⟩
    rw [h]
    simp [formatRoute, setType]

theorem buildRoutesMap_shorthand_normalization_witness :
    get? (buildRoutesMap [("HOME", RouteDef.str "/"),
        ("LOAD", RouteDef.fn "loadThunk")] none false) "HOME"
      = some (RouteDef.record { type := "HOME", path := some "/" })
    ∧ get? (buildRoutesMap [("HOME", RouteDef.str "/"),
        ("LOAD", RouteDef.fn "loadThunk")] none false) "LOAD"
      = some (RouteDef.record { type := "LOAD", thunk := some "loadThunk" }) := by
  constructor
  · exact (buildRoutesMap_shorthand_normalization
      [("HOME", RouteDef.str "/"), ("LOAD", RouteDef.fn "loadThunk")]
      "HOME" "/" "loadThunk" false (by decide)).1 (by decide) (by decide)
  · exact (buildRoutesMap_shorthand_normalization
      [("HOME", RouteDef.str "/"), ("LOAD", RouteDef.fn "loadThunk")]
      "LOAD" "/" "loadThunk" false (by decide)).2 (by decide)

/-- Claim C8: after any registry build every record carries its own map
key as `type`, and a user-supplied record for a built-in key
(`NOT_FOUND` or a maintenance route) replaces the default record while
still being stamped with the built-in type. -/
theorem buildRoutesMap_type_eq_key_and_builtin_override :
    (∀ (input : JsObj RouteDef) (fmt : Option Formatter) (b : Bool)
        (k : String) (r : RouteRec), (keys input).Nodup →
      get? (buildRoutesMap input fmt b) k = some (RouteDef.record r) →
      r.type = k)
    ∧ (∀ (input : JsObj RouteDef) (k : String) (r : RouteRec),
      (keys input).Nodup → k ∈ "NOT_FOUND" :: maintenanceTypes →
      get? input k = some (RouteDef.record r) →
      get? (buildRoutesMap input none false) k
        = some (RouteDef.record { r with type := k })) := by
  constructor
  · intro input fmt b k r hnd hget
    have hroutes : ∃ routes : JsObj RouteDef, (keys routes).Nodup
        ∧ buildRoutesMap input fmt b = formatAll routes fmt b := by
      cases b with
      | true =>
        exact ⟨input, hnd, by unfold buildRoutesMap; rw [if_pos rfl]⟩
      | false =>
        exact ⟨injectDefaultRoutes input, nodup_keys_injectDefaultRoutes input,
          by unfold buildRoutesMap; rw [if_neg (by simp)]⟩
    rcases hroutes with ⟨routes, hrnd, heq⟩
    rw [heq] at hget
    cases hv : get? routes k with
    | none =>
      rw [formatAll_get?_none fmt b hv] at hget
      cases hget
    | some v =>
      rcases formatAll_get? fmt b hrnd hv with ⟨rs0, hrs⟩
      rw [hrs] at hget
      cases hform : formatRoute v k rs0 fmt b with
      | str s =>
        rw [hform] at hget
        simp [setType] at hget
      | fn f =>
        rw [hform] at hget
        simp [setType] at hget
      | record r0 =>
        rw [hform] at hget
        simp only [setType, Option.some_inj] at hget
        cases hget
        rfl
  · intro input k r hnd _ hv
    have hinj := get?_injectDefaultRoutes_of_input hnd hv (by simp [jsTruthyRoute])
    have hb : buildRoutesMap input none false
        = formatAll (injectDefaultRoutes input) none false := by
      unfold buildRoutesMap
      rw [if_neg (by simp)]
    rcases formatAll_get? none false (nodup_keys_injectDefaultRoutes input)
      hinj with ⟨rs0, hrs⟩
    rw [hb, hrs]
    simp [formatRoute, setType]

theorem buildRoutesMap_type_eq_key_and_builtin_override_witness :
    ({ type := "HOME", path := some "/" } : RouteRec).type = "HOME"
    ∧ get? (buildRoutesMap
        [("NOT_FOUND", RouteDef.record { path := some "/custom-404" })]
        none false) "NOT_FOUND"
      = some (RouteDef.record { type := "NOT_FOUND", path := some "/custom-404" }) := by
  constructor
  · exact buildRoutesMap_type_eq_key_and_builtin_override.1
      [("HOME", RouteDef.str "/")] none true "HOME"
      { type := "HOME", path := some "/" } (by decide) (by decide)
  · exact buildRoutesMap_type_eq_key_and_builtin_override.2
      [("NOT_FOUND", RouteDef.record { path := some "/custom-404" })]
      "NOT_FOUND" { path := some "/custom-404" } (by decide) (by decide)
      (by decide)

/-! ## Link resolution (`toUrlAndAction.js`, first document)

The helper resolves a `to` prop (string, path-segment array or action
object) to a `{ fullUrl, action }` pair.  Its collaborators
`actionToUrl`, `toAction` (both from `../../utils`) and the
`resolve-pathname` library are external to the cited source and enter
the embedding as function parameters, so every theorem below holds for
arbitrary behaviour of theirs. -/

/-- `s.indexOf(p) === 0` on strings — `p` is a prefix of `s`. -/
def jsStartsWith (s p : String) : Bool := p.data.isPrefixOf s.data

/-- `findBasename(path, bns = [])`: `bns.find(bn => path.indexOf(bn) === 0)` —
note `Array.prototype.find` returns the FIRST matching element. -/
def findBasename (path : String) (bns : List String) : Option String :=
  bns.find? (fun bn => jsStartsWith path bn)

/-- `stripBasename(path, bn)`: drop the prefix when present. -/
def stripBasename (path : String) (bn : String) : String :=
  if jsStartsWith path bn then String.mk (path.data.drop bn.data.length)
  else path

/-- Modelled from the spec's words, for comparison with `findBasename`:
"the longest configured basename that is a prefix of the URL"
(longest-prefix match among configured basenames). -/
def longestMatchingBasename (url : String) (bns : List String) :
    Option String :=
  (bns.filter (fun bn => jsStartsWith url bn)).foldl
    (fun acc bn =>
      match acc with
      | none => some bn
      | some b => if b.length < bn.length then some bn else acc) none

/-- The slice of an action object the helper reads and writes: its
`basename` property (plus an opaque `type`). -/
structure LinkAction where
  type : String := ""
  basename : Option String := none
deriving DecidableEq, Repr

/-- The `to` prop: a URL string, an array of path segments, or an
action object. -/
inductive To : Type
  | str (s : String)
  | arr (l : List String)
  | obj (a : LinkAction)
deriving DecidableEq, Repr

/-- The helper's `{ fullUrl, action }` result. -/
structure LinkOut where
  fullUrl : String
  action : Option LinkAction
deriving DecidableEq, Repr

/-- A JavaScript runtime exception (the only reachable one here is the
`TypeError` of `to[0].charAt(0)` on an empty array). -/
inductive JsRuntimeErr : Type
  | typeError
deriving DecidableEq, Repr

/-- The tail of the helper (lines 50-76): strip a truthy configured
basename found as a prefix of the url, resolve `#`-urls against the
current pathname and relative urls through `resolve-pathname`, derive
the action when absent and the url is not external, stamp a truthy
basename onto the action, and prefix the basename onto non-external
urls. -/
def applyBasenameAndResolve (toAction : String → LinkAction)
    (resolvePathname : String → String → String)
    (currentPathname : String) (basenames : Option (List String))
    (url0 : String) (action0 : Option LinkAction) (basename0 : String) :
    LinkOut :=
  let bn : Option String := match basenames with
    | some bns => findBasename url0 bns
    | none => none
  let s1 : String × String := match bn with
    | some b => if b == "" then (url0, basename0) else (stripBasename url0 b, b)
    | none => (url0, basename0)
  let url1 := s1.1
  let basename1 := s1.2
  let url2 :=
    if jsStartsWith url1 "#" then currentPathname ++ url1
    else if !(jsStartsWith url1 "/") then resolvePathname url1 currentPathname
    else url1
  let isExternal := jsStartsWith url2 "http"
  let action1 :=
    if action0.isNone && !isExternal then some (toAction url2) else action0
  let action2 :=
    if basename1 == "" then action1
    else match action1 with
      | some a => some { a with basename := some basename1 }
      | none => some { basename := some basename1 }
  let fullUrl := if isExternal then url2 else basename1 ++ url2
  { fullUrl := fullUrl, action := action2 }

/-- The default export of `toUrlAndAction.js`
(`(to, routes, basename = '', currentPathname, options)`).  The head
of the function turns `to` into an initial url/action/basename triple:
a falsy `to` (or empty string) yields the `#` placeholder, a string is
taken as the url, an array whose first segment starts with `/` donates
that segment as basename, and an action object goes through
`actionToUrl` inside `try`/`catch` — a failure is swallowed (modulo a
development-mode `console.warn`, a side effect outside this embedding)
and replaced by the `#` placeholder. -/
def toUrlAndAction (actionToUrl : LinkAction → Except RudyErr String)
    (toAction : String → LinkAction)
    (resolvePathname : String → String → String)
    (toArg : Option To) (basename0 : String) (currentPathname : String)
    (basenames : Option (List String)) : Except JsRuntimeErr LinkOut :=
  let finish := applyBasenameAndResolve toAction resolvePathname
    currentPathname basenames
  match toArg with
  | none => Except.ok (finish "#" none basename0)
  | some (To.str s) =>
      if s == "" then Except.ok (finish "#" none basename0)
      else Except.ok (finish s none basename0)
  | some (To.arr l) =>
      match l with
      | [] => Except.error JsRuntimeErr.typeError
      | h :: t =>
          if jsStartsWith h "/" then
            Except.ok (finish ("/" ++ String.intercalate "/" t) none h)
          else
            Except.ok (finish ("/" ++ String.intercalate "/" (h :: t)) none
              basename0)
  | some (To.obj a) =>
      match actionToUrl a with
      | Except.ok u =>
          Except.ok (finish u (some a)
            (match a.basename with | some b => b | none => basename0))
      | Except.error _ =>
          Except.ok (finish "#" (some a) basename0)

theorem jsStartsWith_hash_cases (b : String)
    (h : jsStartsWith "#" b = true) : b = "" ∨ b = "#" := by
  obtain ⟨l⟩ := b
  have h' : List.isPrefixOf l [(Char.ofNat 35)] = true := h
  cases l with
  | nil =>
    left
    decide
  | cons c t =>
    cases t with
    | nil =>
      have hc : (c == Char.ofNat 35) = true := by
        simpa [List.isPrefixOf] using h'
      right
      rw [eq_of_beq hc]
    | cons d u =>
      exfalso
      simp [List.isPrefixOf] at h'

/-! ## Claims about link resolution -/

/-- Claim C2 counterexample: with configured basenames `/a` then `/ab`
and url `/abc`, the code picks `/a` (the first configured match),
while the longest prefix match among the configured basenames is
`/ab` — so the basename stripped/applied is NOT the longest-prefix
match. -/
theorem findBasename_not_longest_cex :
    findBasename "/abc" ["/a", "/ab"] = some "/a"
    ∧ longestMatchingBasename "/abc" ["/a", "/ab"] = some "/ab"
    ∧ ¬ findBasename "/abc" ["/a", "/ab"]
        = longestMatchingBasename "/abc" ["/a", "/ab"] := by
  decide

/-- Claim C2 (amended): the basename stripped from / applied to the
URL is the FIRST configured basename, in configuration order, that is
a prefix of the URL; when no configured basename is a prefix, none is
used. -/
theorem findBasename_first_matching :
    (∀ (url bn : String) (l1 l2 : List String),
      (∀ x ∈ l1, jsStartsWith url x = false) → jsStartsWith url bn = true →
      findBasename url (l1 ++ bn :: l2) = some bn)
    ∧ (∀ (url : String) (bns : List String),
      (∀ bn ∈ bns, jsStartsWith url bn = false) →
      findBasename url bns = none) := by
  constructor
  · intro url bn l1 l2 hnone hbn
    induction l1 with
    | nil =>
      simpa [findBasename] using List.find?_cons_of_pos _ hbn
    | cons x t ih =>
      have hx : jsStartsWith url x = false :=
        hnone x (List.mem_cons_self x t)
      have ht : ∀ y ∈ t, jsStartsWith url y = false :=
        fun y hy => hnone y (List.mem_cons_of_mem x hy)
      have hrec := ih ht
      unfold findBasename at hrec ⊢
      rw [List.cons_append, List.find?_cons_of_neg _ (by simp [hx])]
      exact hrec
  · intro url bns h
    unfold findBasename
    rw [List.find?_eq_none]
    intro x hx
    rw [h x hx]
    exact Bool.false_ne_true

theorem findBasename_first_matching_witness :
    findBasename "/abc" (["/x"] ++ "/a" :: ["/ab"]) = some "/a"
    ∧ findBasename "/abc" ["/zz"] = none := by
  constructor
  · exact findBasename_first_matching.1 "/abc" "/a" ["/x"] ["/ab"]
      (by decide) (by decide)
  · exact findBasename_first_matching.2 "/abc" ["/zz"] (by decide)

/-- Claim C5: when URL generation from the action fails (any error —
`ParamMismatch`, `InvalidAction`, ...), the helper never propagates the
exception: the `try`/`catch` swallows it and falls back to the `#`
placeholder, which the normalization step turns into an in-page anchor
`basename + currentPathname + "#"`; the caller always receives an
`ok` result. -/
theorem toUrlAndAction_fallback_hash :
    ∀ (actionToUrl : LinkAction → Except RudyErr String)
      (toAction : String → LinkAction)
      (resolvePathname : String → String → String)
      (a : LinkAction) (basename0 currentPathname : String)
      (basenames : Option (List String)) (e : RudyErr),
      actionToUrl a = Except.error e →
      (∀ l, basenames = some l → "#" ∉ l) →
      jsStartsWith (currentPathname ++ "#") "http" = false →
      toUrlAndAction actionToUrl toAction resolvePathname (some (To.obj a))
          basename0 currentPathname basenames
        = Except.ok
            { fullUrl := basename0 ++ (currentPathname ++ "#"),
              action := some (if basename0 == "" then a
                else { a with basename := some basename0 }) } := by
  intro a2u t2a rp a basename0 currentPathname basenames e hfail hbn hcp
  have hhash : jsStartsWith "#" "#" = true := by decide
  have hmain : applyBasenameAndResolve t2a rp currentPathname basenames
      "#" (some a) basename0
      = { fullUrl := basename0 ++ (currentPathname ++ "#"),
          action := some (if basename0 == "" then a
            else { a with basename := some basename0 }) } := by
    cases basenames with
    | none =>
      simp only [applyBasenameAndResolve, hhash, if_true, hcp,
        Option.isNone_some, Bool.false_and, Bool.and_false,
        Bool.false_eq_true, if_false]
      by_cases hb0 : (basename0 == "") = true
      · simp [hb0]
      · simp [hb0]
    | some l =>
      cases hfb : findBasename "#" l with
      | none =>
        simp only [applyBasenameAndResolve, hfb, hhash, if_true, hcp,
          Option.isNone_some, Bool.false_and, Bool.and_false,
          Bool.false_eq_true, if_false]
        by_cases hb0 : (basename0 == "") = true
        · simp [hb0]
        · simp [hb0]
      | some b =>
        have hb : b = "" := by
          have hpre : jsStartsWith "#" b = true := List.find?_some hfb
          rcases jsStartsWith_hash_cases b hpre with h | h
          · exact h
          · exact absurd (h ▸ List.mem_of_find?_eq_some hfb) (hbn l rfl)
        subst hb
        simp only [applyBasenameAndResolve, hfb, hhash, if_true, hcp,
          Option.isNone_some, Bool.false_and, Bool.and_false,
          Bool.false_eq_true, if_false, beq_self_eq_true]
        by_cases hb0 : (basename0 == "") = true
        · simp [hb0]
        · simp [hb0]
  simp only [toUrlAndAction, hfail]
  rw [hmain]

theorem toUrlAndAction_fallback_hash_witness :
    toUrlAndAction (fun _ => Except.error RudyErr.ParamMismatch)
        (fun _ => {}) (fun u _ => u) (some (To.obj { type := "USER" }))
        "" "/current" (some ["/base"])
      = Except.ok { fullUrl := "/current#", action := some { type := "USER" } } := by
  have h := toUrlAndAction_fallback_hash
    (fun _ => Except.error RudyErr.ParamMismatch) (fun _ => {}) (fun u _ => u)
    { type := "USER" } "" "/current" (some ["/base"]) RudyErr.ParamMismatch
    rfl (by intro l hl; cases hl; decide) (by decide)
  rw [h]
  rfl

/-! ## The pathless-route middleware (`pathlessRoute.js`)

The factory `(...names) => (api) => ...` defaults the callback names to
`thunk`, `beforeEnter`, `onComplete`, builds a `call` pipeline over
`[names[1], names[0], names[2]]` with a commit middleware spliced in at
index 1, and returns the outer middleware that runs that pipeline for
pathless routes with at least one of the named callbacks.  The `call`
middleware helper (`src/middleware/call`) and `options.compose` are not
among the source files; the pipeline run is modelled from the spec
(§4.4): middlewares execute strictly in registration order, each doing
its pre-`next()` work before the rest of the chain runs.  The
`api.register('pathlessRoute')` call is bookkeeping with no bearing on
the claims. -/

/-- JS falsiness of an optional string (`undefined` or the empty
string). -/
def jsFalsyOptStr : Option String → Bool
  | none => true
  | some s => s == ""

theorem jsFalsyOptStr_iff {t : Option String} :
    jsFalsyOptStr t = true ↔ t = none ∨ t = some "" := by
  cases t with
  | none => simp [jsFalsyOptStr]
  | some s => simp [jsFalsyOptStr]

/-- `names[i] || dflt`. -/
def jsOrStr (v : Option String) (dflt : String) : String :=
  match v with
  | some s => if s == "" then dflt else s
  | none => dflt

/-- Dynamic lookup `route[name]` over the callback slots the pathless
pipeline can name (`typeof route[name] === 'function'` is
`isSome` here). -/
def RouteRec.callbackAt (r : RouteRec) (name : String) : Option String :=
  if name == "thunk" then r.thunk
  else if name == "beforeEnter" then r.beforeEnter
  else if name == "onComplete" then r.onComplete
  else none

theorem callbackAt_thunk (r : RouteRec) :
    r.callbackAt "thunk" = r.thunk := rfl

theorem callbackAt_beforeEnter (r : RouteRec) :
    r.callbackAt "beforeEnter" = r.beforeEnter := rfl

theorem callbackAt_onComplete (r : RouteRec) :
    r.callbackAt "onComplete" = r.onComplete := rfl

/-- `hasCallback(route, names)`: `names.find(name => typeof route[name]
=== 'function')`. -/
def hasCallback (route : RouteRec) (names : List String) : Option String :=
  names.find? (fun name => (route.callbackAt name).isSome)

/-- The request as the outer pathless middleware sees it: the matched
route (possibly absent) and the in-flight action (opaque, an
identifier). -/
structure PReq where
  route : Option RouteRec
  action : String
deriving DecidableEq, Repr

/-- What the outer middleware resolves to: the pipeline result
(`pipeline(req).then(res => res || req.action)`) or the delegation
`next()`. -/
inductive MwResult : Type
  | piped (a : String)
  | nexted (a : String)
deriving DecidableEq, Repr

/-- The outer middleware returned by the factory (source lines 30-39),
with the composed pipeline abstract: run the pipeline — resolving with
its result, or with `req.action` when that result is falsy — exactly
when the route exists, `!route.path`, and `hasCallback` finds a truthy
name; delegate to `next()` otherwise. -/
def pathlessRouteHandler (pipeline : PReq → Option String) (ns : List String)
    (req : PReq) (nextRes : String) : MwResult :=
  let n0 := jsOrStr (ns.get? 0) "thunk"
  let n1 := jsOrStr (ns.get? 1) "beforeEnter"
  let n2 := jsOrStr (ns.get? 2) "onComplete"
  let names := [n0, n1, n2]
  match req.route with
  | none => MwResult.nexted nextRes
  | some route =>
      if jsFalsyOptStr route.path then
        match hasCallback route names with
        | some n =>
            if n == "" then MwResult.nexted nextRes
            else MwResult.piped ((pipeline req).getD req.action)
        | none => MwResult.nexted nextRes
      else MwResult.nexted nextRes

/-- A forward-pass trace event of the pathless pipeline. -/
inductive PEv : Type
  | ran (name : String)
  | commit
deriving DecidableEq, Repr

/-- The state threaded through the pathless pipeline: the route, the
in-flight action, and the observed forward-pass trace. -/
structure PState where
  route : RouteRec
  action : String
  trace : List PEv
  commits : Nat
deriving DecidableEq, Repr

/-- Modelled from the spec (§4.4, middleware table): the
`call(name, { skipOpts: true })` middleware — `src/middleware/call` is
not among the sources — invokes `route[name]` when it is a function
("any route with a function named by this key will be called") and
passes the request on; the invocation is recorded as a `ran name`
event. -/
def callMw (name : String) (s : PState) : PState :=
  if (s.route.callbackAt name).isSome then
    { s with trace := s.trace ++ [PEv.ran name] }
  else s

/-- The commit middleware spliced into the pipeline (source lines
14-20): `if (req.route.dispatch !== false) req.action =
req.commitDispatch(req.action)`, then `next()`. -/
def commitMw (commitDispatch : String → String) (s : PState) : PState :=
  if s.route.dispatch == some false then s
  else { s with
      trace := s.trace ++ [PEv.commit],
      commits := s.commits + 1,
      action := commitDispatch s.action }

/-- The pipeline middleware list (source lines 3-14): defaulted names,
`callbacks = [names[1], names[0], names[2]]` mapped over `call`, and
the commit middleware spliced in at index 1. -/
def pathlessPipelineMws (commitDispatch : String → String) (ns : List String) :
    List (PState → PState) :=
  let n0 := jsOrStr (ns.get? 0) "thunk"
  let n1 := jsOrStr (ns.get? 1) "beforeEnter"
  let n2 := jsOrStr (ns.get? 2) "onComplete"
  let callbacks := [n1, n0, n2]
  let middlewares := callbacks.map callMw
  middlewares.take 1 ++ [commitMw commitDispatch] ++ middlewares.drop 1

/-- Modelled from the spec (§4.4): `options.compose` runs the
middlewares strictly in registration order; each middleware here does
all its work before calling `next()`, so the forward pass is a left
fold over the list. -/
def runPathlessPipeline (commitDispatch : String → String) (ns : List String)
    (route : RouteRec) (action : String) : PState :=
  (pathlessPipelineMws commitDispatch ns).foldl (fun s m => m s)
    { route := route, action := action, trace := [], commits := 0 }

/-! ## Claims about the pathless-route middleware -/

/-- Claim C4: in the pathless pipeline (default names) the commit of
the action happens exactly once — after `beforeEnter`, before the
thunk and `onComplete` — precisely when the route's `dispatch` flag is
not `false`; with `dispatch: false` the callbacks still run while the
action is never committed. -/
theorem pathlessRoute_commit_order_and_dispatch_flag :
    ∀ (commitDispatch : String → String) (route : RouteRec) (action : String),
      (runPathlessPipeline commitDispatch [] route action).trace
        = (if route.beforeEnter.isSome then [PEv.ran "beforeEnter"] else [])
          ++ (if route.dispatch == some false then [] else [PEv.commit])
          ++ (if route.thunk.isSome then [PEv.ran "thunk"] else [])
          ++ (if route.onComplete.isSome then [PEv.ran "onComplete"] else [])
      ∧ (runPathlessPipeline commitDispatch [] route action).commits
        = (if route.dispatch == some false then 0 else 1)
      ∧ (runPathlessPipeline commitDispatch [] route action).action
        = (if route.dispatch == some false then action
           else commitDispatch action) := by
  intro commitDispatch route action
  obtain ⟨ty, pa, th, be, oc, di⟩ := route
  have hrun :
      runPathlessPipeline commitDispatch []
        { type := ty, path := pa, thunk := th, beforeEnter := be,
          onComplete := oc, dispatch := di } action
      = callMw "onComplete" (callMw "thunk" (commitMw commitDispatch
          (callMw "beforeEnter"
            { route :=
                { type := ty, path := pa, thunk := th, beforeEnter := be,
                  onComplete := oc, dispatch := di },
              action := action,
              trace := [],
              commits := 0 }))) := rfl
  refine ⟨?_, ?_, ?_⟩ <;>
    rw [hrun] <;>
    cases th <;> cases be <;> cases oc <;>
    rcases di with _ | (_ | _) <;>
    simp [callMw, commitMw, callbackAt_thunk, callbackAt_beforeEnter,
      callbackAt_onComplete]

/-- Claim C9: the outer pathless middleware runs its pipeline exactly
when the matched route exists, has a falsy `path`, and defines at
least one of `beforeEnter`/`thunk`/`onComplete`; it then resolves with
the pipeline result, or with the request's action when that result is
falsy.  In every other case it delegates to `next()`. -/
theorem pathlessRoute_runs_iff_pathless_with_callback :
    ∀ (pipeline : PReq → Option String) (req : PReq) (nextRes : String),
      ((∃ r, req.route = some r ∧ (r.path = none ∨ r.path = some "")
          ∧ (r.beforeEnter.isSome ∨ r.thunk.isSome ∨ r.onComplete.isSome)) →
        pathlessRouteHandler pipeline [] req nextRes
          = MwResult.piped ((pipeline req).getD req.action))
      ∧ ((¬ ∃ r, req.route = some r ∧ (r.path = none ∨ r.path = some "")
          ∧ (r.beforeEnter.isSome ∨ r.thunk.isSome ∨ r.onComplete.isSome)) →
        pathlessRouteHandler pipeline [] req nextRes
          = MwResult.nexted nextRes) := by
  intro pipeline req nextRes
  constructor
  · rintro ⟨r, hr, hpath, hcb⟩
    have hfalsy : jsFalsyOptStr r.path = true := jsFalsyOptStr_iff.mpr hpath
    have hex : ∃ n, hasCallback r ["thunk", "beforeEnter", "onComplete"]
        = some n ∧ (n == "") = false := by
      unfold hasCallback
      by_cases hth : r.thunk.isSome = true
      · exact ⟨"thunk",
          List.find?_cons_of_pos _ (by simpa [callbackAt_thunk] using hth),
          by decide⟩
      · rw [List.find?_cons_of_neg _ (by simpa [callbackAt_thunk] using hth)]
        by_cases hbe : r.beforeEnter.isSome = true
        · exact ⟨"beforeEnter",
            List.find?_cons_of_pos _
              (by simpa [callbackAt_beforeEnter] using hbe),
            by decide⟩
        · rw [List.find?_cons_of_neg _
            (by simpa [callbackAt_beforeEnter] using hbe)]
          have hoc : r.onComplete.isSome = true := by
            rcases hcb with h | h | h
            · exact absurd h hbe
            · exact absurd h hth
            · exact h
          exact ⟨"onComplete",
            List.find?_cons_of_pos _
              (by simpa [callbackAt_onComplete] using hoc),
            by decide⟩
    rcases hex with ⟨n, hn, hne⟩
    simp [pathlessRouteHandler, hr, hfalsy, jsOrStr, hn, hne]
  · intro hno
    cases hroute : req.route with
    | none => simp [pathlessRouteHandler, hroute]
    | some r =>
      by_cases hfalsy : jsFalsyOptStr r.path = true
      · have hcb : ¬ (r.beforeEnter.isSome ∨ r.thunk.isSome
            ∨ r.onComplete.isSome) := by
          intro hcb
          exact hno ⟨r, hroute, jsFalsyOptStr_iff.mp hfalsy, hcb⟩
        push_neg at hcb
        obtain ⟨hbe, hth, hoc⟩ := hcb
        have hnone : hasCallback r ["thunk", "beforeEnter", "onComplete"]
            = none := by
          unfold hasCallback
          rw [List.find?_cons_of_neg _ (by simp [callbackAt_thunk, hth]),
            List.find?_cons_of_neg _ (by simp [callbackAt_beforeEnter, hbe]),
            List.find?_cons_of_neg _ (by simp [callbackAt_onComplete, hoc])]
          rfl
        simp [pathlessRouteHandler, hroute, hfalsy, jsOrStr, hnone]
      · simp [pathlessRouteHandler, hroute, jsOrStr, hfalsy]

theorem pathlessRoute_runs_iff_pathless_with_callback_witness :
    pathlessRouteHandler (fun _ => none) []
        { route := some { thunk := some "doWork" }, action := "ACTION" } "NEXT"
      = MwResult.piped "ACTION"
    ∧ pathlessRouteHandler (fun _ => none) []
        { route := some { path := some "/home", thunk := some "doWork" },
              action := "ACTION2" } "NEXT2"
      = MwResult.nexted "NEXT2" := by
  constructor
  · exact (pathlessRoute_runs_iff_pathless_with_callback (fun _ => none)
      { route := some { thunk := some "doWork" }, action := "ACTION" }
      "NEXT").1 ⟨{ thunk := some "doWork" }, rfl, Or.inl rfl,
        Or.inr (Or.inl rfl)⟩
  · refine (pathlessRoute_runs_iff_pathless_with_callback (fun _ => none)
      { route := some { path := some "/home", thunk := some "doWork" },
            action := "ACTION2" } "NEXT2").2 ?_
    rintro ⟨r, hr, hpath, _⟩
    cases hr
    rcases hpath with h | h
    · exact Option.noConfusion h
    · exact absurd h (by decide)

/-! ## The Link press handler (`handlePress.js`) -/

/-- The slice of a click event the handler reads.  `button` is the
mouse-button index (`0` is the primary button). -/
structure ClickEvent where
  defaultPrevented : Bool := false
  metaKey : Bool := false
  altKey : Bool := false
  ctrlKey : Bool := false
  shiftKey : Bool := false
  button : Nat := 0
deriving DecidableEq, Repr

/-- `isModified(e)`: any of the four modifier keys held. -/
def isModified (e : ClickEvent) : Bool :=
  e.metaKey || e.altKey || e.ctrlKey || e.shiftKey

/-- What gets dispatched: the resolved action, redirect-wrapped when
the link is a redirect. -/
inductive DispatchedAction : Type
  | plain (a : LinkAction)
  | redirect (a : LinkAction)
deriving DecidableEq, Repr

/-- The observable outcome of a press: a dispatch, an external
navigation (`window.location.href = fullUrl`), or nothing. -/
inductive PressOutcome : Type
  | dispatched (a : DispatchedAction)
  | externalNav (url : String)
  | noop
deriving DecidableEq, Repr

/-- `handlePress` (default export).  `prevented` is captured from the
event before the user `onClick` runs; `onClick` may return `false` to
veto the dispatch (an `onClick` prop of `false` behaves like an absent
one — both are falsy — and is modelled as `none`).  The
`e.preventDefault()` call and the `history.saveHistory` patch are side
effects that do not influence which outcome is returned and live
outside the embedding. -/
def jsShouldGo (onClick : Option (ClickEvent → Option Bool))
    (e : ClickEvent) : Bool :=
  match onClick with
  | some f => !(f e == some false)
  | none => true

def handlePress (action : Option LinkAction) (shouldDispatch : Bool)
    (onClick : Option (ClickEvent → Option Bool)) (target : Option String)
    (isRedirect : Bool) (fullUrl : String) (e : ClickEvent) : PressOutcome :=
  let prevented := e.defaultPrevented
  let notModified := !(isModified e)
  let shouldGo := jsShouldGo onClick e
  if action.isSome && shouldGo && shouldDispatch && jsFalsyOptStr target
      && !prevented && notModified && (e.button == 0) then
    match action with
    | some a => PressOutcome.dispatched
        (if isRedirect then DispatchedAction.redirect a
         else DispatchedAction.plain a)
    | none => PressOutcome.noop
  else if action.isNone && jsFalsyOptStr target
      && jsStartsWith fullUrl "http" then
    PressOutcome.externalNav fullUrl
  else
    PressOutcome.noop

/-! ## Claim about the press handler -/

/-- Claim C10: the press handler dispatches exactly when an action was
resolved, the user `onClick` did not return `false`, dispatching is
enabled, no (truthy) `target` attribute is set, the event was not
already default-prevented, no modifier key was held, and the primary
button was used. -/
theorem handlePress_dispatch_iff :
    ∀ (action : Option LinkAction) (shouldDispatch : Bool)
      (onClick : Option (ClickEvent → Option Bool)) (target : Option String)
      (isRedirect : Bool) (fullUrl : String) (e : ClickEvent),
      (∃ d, handlePress action shouldDispatch onClick target isRedirect
          fullUrl e = PressOutcome.dispatched d)
      ↔ (action.isSome = true
        ∧ (∀ f, onClick = some f → f e ≠ some false)
        ∧ shouldDispatch = true
        ∧ (target = none ∨ target = some "")
        ∧ e.defaultPrevented = false
        ∧ isModified e = false
        ∧ e.button = 0) := by
  intro action shouldDispatch onClick target isRedirect fullUrl e
  have hsg_iff : jsShouldGo onClick e = true
      ↔ ∀ f, onClick = some f → f e ≠ some false := by
    cases onClick with
    | none =>
      simp [jsShouldGo]
    | some f =>
      constructor
      · intro h g hg hfe
        cases hg
        simp [jsShouldGo, hfe] at h
      · intro h
        have hne := h f rfl
        simp only [jsShouldGo, Bool.not_eq_true']
        exact beq_eq_false_iff_ne.mpr hne
  constructor
  · rintro ⟨d, hd⟩
    simp only [handlePress] at hd
    by_cases hcond : (action.isSome && jsShouldGo onClick e && shouldDispatch
        && jsFalsyOptStr target && !e.defaultPrevented && !(isModified e)
        && (e.button == 0)) = true
    · simp only [Bool.and_eq_true] at hcond
      obtain ⟨⟨⟨⟨⟨⟨h1, h2⟩, h3⟩, h4⟩, h5⟩, h6⟩, h7⟩ := hcond
      refine ⟨h1, hsg_iff.mp h2, h3, jsFalsyOptStr_iff.mp h4, ?_, ?_, ?_⟩
      · simpa using h5
      · simpa using h6
      · simpa using h7
    · rw [if_neg hcond] at hd
      split at hd <;> simp at hd
  · rintro ⟨h1, h2, h3, h4, h5, h6, h7⟩
    obtain ⟨a, ha⟩ := Option.isSome_iff_exists.mp h1
    have hsg : jsShouldGo onClick e = true := hsg_iff.mpr h2
    have hft : jsFalsyOptStr target = true := jsFalsyOptStr_iff.mpr h4
    refine ⟨if isRedirect then DispatchedAction.redirect a
      else DispatchedAction.plain a, ?_⟩
    simp only [handlePress]
    rw [ha, if_pos (by simp [hsg, h3, hft, h5, h6, h7])]

theorem handlePress_dispatch_iff_witness :
    ∃ d, handlePress (some { type := "HOME" }) true none none false
        "/user" {} = PressOutcome.dispatched d :=
  (handlePress_dispatch_iff (some { type := "HOME" }) true none none false
    "/user" {}).mpr
    ⟨rfl, fun _ hf => Option.noConfusion hf, rfl, Or.inl rfl, rfl, rfl, rfl⟩

end Rudy
